import Mathlib

/-!
Verification of the crop/stitch pipeline of the deepcell data-engineering
repository.  The definitions below are shallow embeddings of
`deepcell_toolbox/post_annotation/npz_postprocessing.py`
(`load_crops`, `stitch_crops`, the padding trim of `reconstruct_image_stack`)
and of the input validation of `caliban_toolbox/reshape_data.py`
(`crop_multichannel_data`).

An image plane with channels is modelled as a total function
`row → col → chan → ℕ`; all source operations only ever consult indices
inside the declared bounds, which are passed alongside.  Pixel values are
natural numbers (the source stores integral label/raw values in a float64
array; none of the verified properties depend on float rounding).
-/

deriving instance DecidableEq for Except

/-- One image (one fov): row → col → channel → value. -/
def Img : Type := ℕ → ℕ → ℕ → ℕ

/-- Index domain of an array of shape `(Rc, Cc, K)`. -/
def cropDomain (Rc Cc K : ℕ) : Finset (ℕ × ℕ × ℕ) :=
  Finset.range Rc ×ˢ Finset.range Cc ×ˢ Finset.range K

/-- `np.amax(stitched_image[img, ...])` over an `R × C × K` image. -/
def imgMax (R C K : ℕ) (f : Img) : ℕ :=
  (cropDomain R C K).sup fun p => f p.1 p.2.1 p.2.2

/-- `np.where(crop == 0, crop, crop + lowest_allowed_val)`
(npz_postprocessing.py line 114): add the offset to every non-zero pixel,
in every channel. -/
def offsetCrop (b : ℕ) (crop : Img) : Img := fun r c k =>
  if crop r c k = 0 then 0 else crop r c k + b

/-- `potential_overlap_cells = np.unique(crop)[np.nonzero(...)]`
(lines 117-118): the distinct non-zero values of the (offset) crop. -/
def cellsOf (Rc Cc K : ℕ) (crop : Img) : Finset ℕ :=
  ((cropDomain Rc Cc K).image fun p => crop p.1 p.2.1 p.2.2).erase 0

/-- `np.unique(stitched_crop[crop == cell])` with zero removed
(lines 127-129): the non-zero accumulator values found, inside the crop's
destination window anchored at `(rs, cs)`, at the pixels whose crop value
is `v`. -/
def overlapVals (acc : Img) (rs cs Rc Cc K : ℕ) (crop : Img) (v : ℕ) : Finset ℕ :=
  (((cropDomain Rc Cc K).filter fun p => crop p.1 p.2.1 p.2.2 = v).image
    fun p => acc (rs + p.1) (cs + p.2.1) p.2.2).erase 0

/-- The value a non-zero cell `v` of the (offset) crop ends up with after
the cell loop: the greatest non-zero accumulator value found at its pixels
when there is one, its own value otherwise. -/
def mergeVal (acc : Img) (rs cs Rc Cc K : ℕ) (crop : Img) (v : ℕ) : ℕ :=
  if h : (overlapVals acc rs cs Rc Cc K crop v).Nonempty then
    (overlapVals acc rs cs Rc Cc K crop v).max' h
  else v

/-- Body of the `for cell in potential_overlap_cells` loop (lines 124-134):
if the cell's pixels see any non-zero accumulator value, replace every
pixel holding `v` by the greatest such accumulator value
(`stitched_overlap_vals[np.argmax(stitched_overlap_vals)]`). -/
def remapCell (acc : Img) (rs cs Rc Cc K : ℕ) (cur : Img) (v : ℕ) : Img :=
  let O := overlapVals acc rs cs Rc Cc K cur v
  if h : O.Nonempty then
    fun r c k => if cur r c k = v then O.max' h else cur r c k
  else cur

/-- The sorted enumeration of the crop's distinct non-zero values, as
`np.unique` returns them (ascending). -/
def cellList (Rc Cc K : ℕ) (crop : Img) : List ℕ :=
  (List.range (imgMax Rc Cc K crop + 1)).filter fun v => v ∈ cellsOf Rc Cc K crop

/-- The whole cell loop of `stitch_crops` (lines 124-134): the cell set is
computed once from the crop as passed in; each iteration's mask is taken on
the current, possibly already remapped, crop. -/
def processCells (acc : Img) (rs cs Rc Cc K : ℕ) (crop : Img) : Img :=
  (cellList Rc Cc K crop).foldl (remapCell acc rs cs Rc Cc K) crop

/-- One iteration of the crop loop of `stitch_crops` (lines 110-140):
offset the crop by the accumulator maximum, remap the overlap cells, then
`combined_crop = np.where(stitched_crop > 0, stitched_crop, crop)` written
back into the destination window. -/
def placeCrop (R C K : ℕ) (rs re cs ce : ℕ) (acc : Img) (crop0 : Img) : Img :=
  let b := imgMax R C K acc
  let newCrop := processCells acc rs cs (re - rs) (ce - cs) K (offsetCrop b crop0)
  fun r c k =>
    if rs ≤ r ∧ r < re ∧ cs ≤ c ∧ c < ce ∧ k < K then
      (if 0 < acc r c k then acc r c k else newCrop (r - rs) (c - cs) k)
    else acc r c k

/-- The crop placement loops of `stitch_crops` (lines 104-142) for one
image: crops are visited with `crop_counter = row * num_cols + col`, the
window for crop `i` being rows `row_starts[i / nC] .. row_ends[i / nC]` and
cols `col_starts[i % nC] .. col_ends[i % nC]`; the accumulator starts
all-zero. -/
def placeAll (R C K nR nC : ℕ) (rS rE cS cE : ℕ → ℕ) (crops : ℕ → Img) : Img :=
  (List.range (nR * nC)).foldl
    (fun acc i => placeCrop R C K (rS (i / nC)) (rE (i / nC)) (cS (i % nC)) (cE (i % nC))
      acc (crops i))
    (fun _ _ _ => 0)

/-- The distinct non-zero values of a single-channel `R × C` plane. -/
def planeVals (R C : ℕ) (plane : ℕ → ℕ → ℕ) : Finset ℕ :=
  ((Finset.range R ×ˢ Finset.range C).image fun p => plane p.1 p.2).erase 0

/-- Rank of `v` inside the value set `s`: the number of values of `s` that
are `≤ v`.  For `v ∈ s` this is its 1-based position in ascending order. -/
def seqRank (s : Finset ℕ) (v : ℕ) : ℕ := (s.filter (· ≤ v)).card

/-- `skimage.segmentation.relabel_sequential` as used on line 146 (external
library function): non-zero values are mapped, in ascending order, to the
dense range 1.. ; 0 is left in place. -/
def relabelSeq (R C : ℕ) (plane : ℕ → ℕ → ℕ) : ℕ → ℕ → ℕ :=
  fun r c => if plane r c = 0 then 0 else seqRank (planeVals R C plane) (plane r c)

/-- `stitch_crops` (npz_postprocessing.py lines 86-148): each image of the
stack is processed with its own all-zero accumulator of the padded shape
`R × C × K`; after placement the last channel (`[..., -1]`, the label
channel) is relabeled sequentially, the other channels are returned as
placed. -/
def stitch_crops (R C K nR nC : ℕ) (rS rE cS cE : ℕ → ℕ)
    (stack : ℕ → ℕ → Img) : ℕ → Img :=
  fun img =>
    let placed := placeAll R C K nR nC rS rE cS cE (stack img)
    fun r c k =>
      if k = K - 1 then relabelSeq R C (fun r' c' => placed r' c' (K - 1)) r c
      else placed r c k

/-- Modelled from the spec: `crop_helper` of
`caliban_toolbox.utils.crop_utils` is not part of the sources; per spec
§4.2 the Cropper is a pure windowed copy — crop `i` covers rows
`row_starts[i / nC]..` and cols `col_starts[i % nC]..` of the padded
tensor, `crop index = row_index * num_col_tiles + col_index`. -/
def crop_helper (nC : ℕ) (rS cS : ℕ → ℕ) (T : Img) : ℕ → Img :=
  fun idx r c k => T (rS (idx / nC) + r) (cS (idx % nC) + c) k

/-- `load_crops` (npz_postprocessing.py lines 36-83), npz branch: the
directory is modelled by a presence flag and the tile contents per
`(fov, row, col)`; `stack` is zero-initialised, a present tile writes its
`X` array into channels `0..K-2` and its `y` array into channel `K-1`, an
absent tile is skipped (region stays zero) and only a message is printed;
`crop_idx = row * num_col_crops + col`. -/
def load_crops (nF nRr nCc Rc Cc K : ℕ) (present : ℕ → ℕ → ℕ → Bool)
    (tileX : ℕ → ℕ → ℕ → Img) (tileY : ℕ → ℕ → ℕ → ℕ → ℕ → ℕ) :
    ℕ → ℕ → Img :=
  fun fov cropIdx r c k =>
    let row := cropIdx / nCc
    let col := cropIdx % nCc
    if fov < nF ∧ row < nRr ∧ col < nCc ∧ r < Rc ∧ c < Cc ∧ k < K then
      (if present fov row col then
        (if k = K - 1 then tileY fov row col r c else tileX fov row col r c k)
      else 0)
    else 0

/-- The `ValueError` sites of the sanitising block of
`crop_multichannel_data` (reshape_data.py lines 57-102); the spec calls all
of them `ConfigurationError`. -/
inductive CropErr : Type
  | bothNone
  | bothSome
  | sizePos
  | numPos
  | overlapRange
  | strideTooSmall
  | sizeNonPos
  | numNonPos
deriving DecidableEq

/-- The sanitising block of `crop_multichannel_data` (lines 57-93) in
source order.  The tuple-length and `isinstance(_, int)` checks hold by
construction in this embedding (entries are integers of a pair) and the
positivity tests are transcribed with Python's precedence:
`not crop_size[0] > 0 and crop_size[1] > 0` parses as
`(not (crop_size[0] > 0)) and (crop_size[1] > 0)`.
`pairPosCheckFires` is that guard (false when the argument is absent). -/
def pairPosCheckFires (o : Option (ℤ × ℤ)) : Bool :=
  match o with
  | none => false
  | some s => (!(decide (0 < s.1))) && decide (0 < s.2)

/-- The sanitising chain of `crop_multichannel_data` in source order:
both-none, both-given, `crop_size` positivity, `crop_num` positivity,
overlap-fraction range (`overlap_frac < 0 or overlap_frac > 1`). -/
def validate_crop_params (cs cn : Option (ℤ × ℤ)) (f : ℚ) : Except CropErr Unit :=
  if cs.isNone && cn.isNone then .error .bothNone
  else if cs.isSome && cn.isSome then .error .bothSome
  else if pairPosCheckFires cs then .error .sizePos
  else if pairPosCheckFires cn then .error .numPos
  else if decide (f < 0) || decide (1 < f) then .error .overlapRange
  else .ok ()

/-- Modelled from the spec: `compute_crop_indices` of
`caliban_toolbox.utils.crop_utils` (crop-count mode) is not part of the
sources; per spec §4.1, `S = ceil(L / (N - f*(N-1)))`, `stride = S*(1-f)`
(failing with `ConfigurationError` when the stride is below 1, and per the
same contract when `N ≤ 0`), `start[i] = round(i * stride)`,
`end[i] = start[i] + S`, pad so the last end equals `L + P`. -/
def compute_crop_indices_num (L : ℕ) (N : ℤ) (f : ℚ) :
    Except CropErr (List ℤ × List ℤ × ℤ) :=
  if (⌈(L : ℚ) / ((N : ℚ) - f * ((N : ℚ) - 1))⌉ : ℚ) * (1 - f) < 1 then
    .error .strideTooSmall
  else if N ≤ 0 then .error .numNonPos
  else
    let S : ℤ := ⌈(L : ℚ) / ((N : ℚ) - f * ((N : ℚ) - 1))⌉
    let stride : ℚ := (S : ℚ) * (1 - f)
    let starts := (List.range N.toNat).map fun i => round ((i : ℚ) * stride)
    let ends := starts.map (· + S)
    let P := (ends.getLastD 0) - (L : ℤ)
    .ok (starts, ends, P)

/-- Modelled from the spec: `compute_crop_indices` in tile-size mode; per
spec §4.1, `stride = S*(1-f)` (≥ 1 or fail with `ConfigurationError`, and
per the same contract when `S ≤ 0`), `N = ceil((L-S)/stride)+1` clipped to
≥ 1, boundaries as in count mode. -/
def compute_crop_indices_size (L : ℕ) (S : ℤ) (f : ℚ) :
    Except CropErr (List ℤ × List ℤ × ℤ) :=
  if (S : ℚ) * (1 - f) < 1 then .error .strideTooSmall
  else if S ≤ 0 then .error .sizeNonPos
  else
    let stride : ℚ := (S : ℚ) * (1 - f)
    let N : ℤ := max 1 (⌈((L : ℚ) - (S : ℚ)) / stride⌉ + 1)
    let starts := (List.range N.toNat).map fun i => round ((i : ℚ) * stride)
    let ends := starts.map (· + S)
    let P := (ends.getLastD 0) - (L : ℤ)
    .ok (starts, ends, P)

/-- Errors a `crop_multichannel_data` call can raise: one of the
`ValueError`s of the sanitising block, or the `TypeError` Python raises
for `None[0]`. -/
inductive PyErr : Type
  | config : CropErr → PyErr
  | typeError
deriving DecidableEq

/-- Reconstruction log assembled at reshape_data.py lines 138-149:
row/col starts, ends, crop sizes and paddings. -/
def LogData : Type :=
  List ℤ × List ℤ × ℤ × List ℤ × List ℤ × ℤ × ℤ × ℤ

/-- `crop_multichannel_data` (reshape_data.py lines 40-150) over the
row/col lengths of the input tensor: sanitise, plan indices for both axes
(size mode or count mode), then build the log — whose lines 141 and 144
subscript `crop_size` unconditionally, a `TypeError` when `crop_size` is
`None`. -/
def crop_multichannel_data (rowLen colLen : ℕ) (cs cn : Option (ℤ × ℤ))
    (f : ℚ) : Except PyErr LogData :=
  match validate_crop_params cs cn f with
  | .error e => .error (.config e)
  | .ok _ =>
    let plan :=
      match cs, cn with
      | some s, _ =>
        (compute_crop_indices_size rowLen s.1 f).bind fun rp =>
          (compute_crop_indices_size colLen s.2 f).map fun cp => (rp, cp)
      | none, some n =>
        (compute_crop_indices_num rowLen n.1 f).bind fun rp =>
          (compute_crop_indices_num colLen n.2 f).map fun cp => (rp, cp)
      | none, none => .error .bothNone
    match plan with
    | .error e => .error (.config e)
    | .ok ((rStarts, rEnds, rPad), (cStarts, cEnds, cPad)) =>
      match cs with
      | none => .error .typeError
      | some s => .ok (rStarts, rEnds, s.1, cStarts, cEnds, s.2, rPad, cPad)

/-- Normalised Python slice stop for `a[0:stop]` on an axis of length `n`:
a negative stop counts from the end and clamps at 0, a non-negative stop
clamps at `n`; the length of `a[0:stop]` is this value. -/
def pyStop (n : ℕ) (stop : ℤ) : ℕ :=
  if stop < 0 then (((n : ℤ) + stop) ⊔ 0).toNat else min stop.toNat n

/-- The padding trim of `reconstruct_image_stack`
(npz_postprocessing.py line 187):
`stitched_images[:, 0:(-row_padding), 0:(-col_padding), :]` — the
resulting (row length, col length). -/
def trim_dims (R C rp cp : ℕ) : ℕ × ℕ :=
  (pyStop R (-(rp : ℤ)), pyStop C (-(cp : ℤ)))

/-- `np.max` over a single-channel `R × C` plane. -/
def planeMax (R C : ℕ) (plane : ℕ → ℕ → ℕ) : ℕ :=
  (Finset.range R ×ˢ Finset.range C).sup fun p => plane p.1 p.2

/-- A concrete 1×3 two-channel tensor (channel 0 raw, channel 1 label):
raw value 5 at column 0, raw value 7 at column 2, label channel all zero
(fully unlabeled). -/
def tensorA : Img := fun r c k =>
  if r = 0 ∧ c = 0 ∧ k = 0 then 5 else if r = 0 ∧ c = 2 ∧ k = 0 then 7 else 0

/-- `tensorA` cropped by the plan `rows [0,1)`, `cols [0,2)` and `[1,3)`
(two overlapping column tiles, no padding needed). -/
def stackA : ℕ → ℕ → Img := fun _ => crop_helper 2 (fun _ => 0) (fun i => i) tensorA

/-- A concrete crop stack fed directly to the stitcher (one image, two
1×2 crops, 2 channels): crop 0 holds raw value 3 at its pixel (0,0),
crop 1 holds raw value 4 at its pixel (0,1); label channel all zero. -/
def stackB : ℕ → ℕ → Img := fun _ cropIdx r c k =>
  if cropIdx = 0 ∧ r = 0 ∧ c = 0 ∧ k = 0 then 3
  else if cropIdx = 1 ∧ r = 0 ∧ c = 1 ∧ k = 0 then 4
  else 0

/-- A single-crop, single-pixel, single-channel label stack holding one
object with label 1. -/
def stackC : ℕ → ℕ → Img := fun _ cropIdx r c k =>
  if cropIdx = 0 ∧ r = 0 ∧ c = 0 ∧ k = 0 then 1 else 0

/-- A concrete 1×2 single-channel accumulator holding label 2 at (0,0). -/
def exAcc : Img := fun r c k => if r = 0 ∧ c = 0 ∧ k = 0 then 2 else 0

/-- A concrete 1×2 single-channel crop holding one cell of label 1 whose
pixels cover both columns, so it overlaps `exAcc`'s label 2 at (0,0). -/
def exCrop : Img := fun r c k => if r = 0 ∧ k = 0 ∧ c ≤ 1 then 1 else 0

/-! ### Lemmas about the cell-merge loop of `stitch_crops` -/

lemma mem_cellsOf_iff (Rc Cc K : ℕ) (crop : Img) (v : ℕ) :
    v ∈ cellsOf Rc Cc K crop ↔
      v ≠ 0 ∧ ∃ p ∈ cropDomain Rc Cc K, crop p.1 p.2.1 p.2.2 = v := by
  unfold cellsOf
  simp [Finset.mem_erase, Finset.mem_image]

lemma cellsOf_offsetCrop_gt (Rc Cc K b : ℕ) (crop : Img) (v : ℕ)
    (hv : v ∈ cellsOf Rc Cc K (offsetCrop b crop)) : b < v := by
  rcases (mem_cellsOf_iff _ _ _ _ _).mp hv with ⟨hne, p, _, hval⟩
  unfold offsetCrop at hval
  by_cases h : crop p.1 p.2.1 p.2.2 = 0
  · rw [if_pos h] at hval
    exact absurd hval.symm hne
  · rw [if_neg h] at hval
    omega

lemma overlapVals_le (acc : Img) (rs cs Rc Cc K b : ℕ) (f : Img) (v x : ℕ)
    (hb : ∀ p ∈ cropDomain Rc Cc K, acc (rs + p.1) (cs + p.2.1) p.2.2 ≤ b)
    (hx : x ∈ overlapVals acc rs cs Rc Cc K f v) : x ≤ b := by
  unfold overlapVals at hx
  rcases Finset.mem_erase.mp hx with ⟨_, hximg⟩
  rcases Finset.mem_image.mp hximg with ⟨p, hpf, hpx⟩
  rcases Finset.mem_filter.mp hpf with ⟨hpdom, _⟩
  exact hpx ▸ hb p hpdom

lemma overlapVals_congr (acc : Img) (rs cs Rc Cc K : ℕ) (f g : Img) (v : ℕ)
    (h : ∀ r c k, f r c k = v ↔ g r c k = v) :
    overlapVals acc rs cs Rc Cc K f v = overlapVals acc rs cs Rc Cc K g v := by
  unfold overlapVals
  have hfilter : (cropDomain Rc Cc K).filter (fun p => f p.1 p.2.1 p.2.2 = v)
      = (cropDomain Rc Cc K).filter (fun p => g p.1 p.2.1 p.2.2 = v) :=
    Finset.filter_congr fun p _ => h p.1 p.2.1 p.2.2
  rw [hfilter]

lemma remapCell_apply (acc : Img) (rs cs Rc Cc K : ℕ) (cur : Img) (v r c k : ℕ) :
    remapCell acc rs cs Rc Cc K cur v r c k
      = if h : (overlapVals acc rs cs Rc Cc K cur v).Nonempty then
          (if cur r c k = v then (overlapVals acc rs cs Rc Cc K cur v).max' h
           else cur r c k)
        else cur r c k := by
  unfold remapCell
  by_cases h : (overlapVals acc rs cs Rc Cc K cur v).Nonempty
  · simp [h]
  · simp [h]

lemma cellList_nodup (Rc Cc K : ℕ) (crop : Img) : (cellList Rc Cc K crop).Nodup :=
  (List.nodup_range _).filter _

lemma mem_cellList_iff (Rc Cc K : ℕ) (crop : Img) (v : ℕ) :
    v ∈ cellList Rc Cc K crop ↔ v ∈ cellsOf Rc Cc K crop := by
  unfold cellList
  simp only [List.mem_filter, List.mem_range, decide_eq_true_eq]
  constructor
  · exact fun h => h.2
  · intro h
    refine ⟨?_, h⟩
    rcases (mem_cellsOf_iff _ _ _ _ _).mp h with ⟨_, p, hp, hval⟩
    have hle : crop p.1 p.2.1 p.2.2 ≤ imgMax Rc Cc K crop := by
      unfold imgMax
      exact Finset.le_sup (f := fun q : ℕ × ℕ × ℕ => crop q.1 q.2.1 q.2.2) hp
    omega

lemma foldl_remapCell_spec (acc offc : Img) (rs cs Rc Cc K b : ℕ)
    (hb : ∀ p ∈ cropDomain Rc Cc K, acc (rs + p.1) (cs + p.2.1) p.2.2 ≤ b)
    (hcells : ∀ v ∈ cellsOf Rc Cc K offc, b < v) :
    ∀ (L : List ℕ), L.Nodup → (∀ v ∈ L, v ∈ cellsOf Rc Cc K offc) →
    ∀ (cur : Img),
      (∀ r c k, offc r c k ∈ L → cur r c k = offc r c k) →
      (∀ r c k v, v ∈ L → cur r c k = v → offc r c k = v) →
      ∀ r c k,
        (offc r c k ∈ L →
          (L.foldl (remapCell acc rs cs Rc Cc K) cur) r c k
            = mergeVal acc rs cs Rc Cc K offc (offc r c k)) ∧
        (offc r c k ∉ L →
          (L.foldl (remapCell acc rs cs Rc Cc K) cur) r c k = cur r c k) := by
  intro L
  induction L with
  | nil =>
    intro _ _ cur _ _ r c k
    exact ⟨fun h => absurd h (List.not_mem_nil _), fun _ => rfl⟩
  | cons v rest ih =>
    intro hnd hmemL cur h1 h2 r c k
    rcases List.nodup_cons.mp hnd with ⟨hvrest, hndrest⟩
    have hmask : ∀ r' c' k', cur r' c' k' = v ↔ offc r' c' k' = v := by
      intro r' c' k'
      constructor
      · exact h2 r' c' k' v (List.mem_cons_self _ _)
      · intro h
        exact (h1 r' c' k' (by rw [h]; exact List.mem_cons_self _ _)).trans h
    have hO : overlapVals acc rs cs Rc Cc K cur v
        = overlapVals acc rs cs Rc Cc K offc v :=
      overlapVals_congr acc rs cs Rc Cc K cur offc v hmask
    have hstep : ∀ r' c' k',
        (offc r' c' k' = v →
          remapCell acc rs cs Rc Cc K cur v r' c' k'
            = mergeVal acc rs cs Rc Cc K offc v) ∧
        (offc r' c' k' ≠ v →
          remapCell acc rs cs Rc Cc K cur v r' c' k' = cur r' c' k') := by
      intro r' c' k'
      constructor
      · intro hov
        have hcv : cur r' c' k' = v := (hmask r' c' k').mpr hov
        rw [remapCell_apply, hO]
        unfold mergeVal
        by_cases hne : (overlapVals acc rs cs Rc Cc K offc v).Nonempty
        · rw [dif_pos hne, dif_pos hne, if_pos hcv]
        · rw [dif_neg hne, dif_neg hne]
          exact hcv
      · intro hov
        have hcv : cur r' c' k' ≠ v := fun h => hov ((hmask _ _ _).mp h)
        rw [remapCell_apply, hO]
        by_cases hne : (overlapVals acc rs cs Rc Cc K offc v).Nonempty
        · rw [dif_pos hne, if_neg hcv]
        · rw [dif_neg hne]
    have h1' : ∀ r' c' k', offc r' c' k' ∈ rest →
        remapCell acc rs cs Rc Cc K cur v r' c' k' = offc r' c' k' := by
      intro r' c' k' hmem
      have hne : offc r' c' k' ≠ v := fun h => hvrest (h ▸ hmem)
      rw [(hstep r' c' k').2 hne]
      exact h1 r' c' k' (List.mem_cons_of_mem _ hmem)
    have h2' : ∀ r' c' k' w, w ∈ rest →
        remapCell acc rs cs Rc Cc K cur v r' c' k' = w → offc r' c' k' = w := by
      intro r' c' k' w hw hcw
      by_cases hov : offc r' c' k' = v
      · exfalso
        rw [(hstep r' c' k').1 hov] at hcw
        have hwcell : w ∈ cellsOf Rc Cc K offc := hmemL w (List.mem_cons_of_mem _ hw)
        have hbw : b < w := hcells w hwcell
        have hwv : w ≠ v := fun h => hvrest (h ▸ hw)
        unfold mergeVal at hcw
        split at hcw
        · next hne =>
          have hle : (overlapVals acc rs cs Rc Cc K offc v).max' hne ≤ b :=
            Finset.max'_le _ hne b fun y hy =>
              overlapVals_le acc rs cs Rc Cc K b offc v y hb hy
          rw [hcw] at hle
          omega
        · next => exact hwv hcw.symm
      · rw [(hstep r' c' k').2 hov] at hcw
        exact h2 r' c' k' w (List.mem_cons_of_mem _ hw) hcw
    have IH := ih hndrest (fun w hw => hmemL w (List.mem_cons_of_mem _ hw))
      (remapCell acc rs cs Rc Cc K cur v) h1' h2'
    simp only [List.foldl_cons]
    constructor
    · intro hmem
      rcases List.mem_cons.mp hmem with hv | hrest
      · have hnotin : offc r c k ∉ rest := by rw [hv]; exact hvrest
        rw [(IH r c k).2 hnotin, hv, (hstep r c k).1 hv]
      · exact (IH r c k).1 hrest
    · intro hmem
      have hnv : offc r c k ≠ v := fun h => hmem (h ▸ List.mem_cons_self _ _)
      have hnrest : offc r c k ∉ rest := fun h => hmem (List.mem_cons_of_mem _ h)
      rw [(IH r c k).2 hnrest, (hstep r c k).2 hnv]

lemma processCells_spec (acc offc : Img) (rs cs Rc Cc K b : ℕ)
    (hb : ∀ p ∈ cropDomain Rc Cc K, acc (rs + p.1) (cs + p.2.1) p.2.2 ≤ b)
    (hcells : ∀ v ∈ cellsOf Rc Cc K offc, b < v) (r c k : ℕ) :
    processCells acc rs cs Rc Cc K offc r c k
      = if offc r c k ∈ cellsOf Rc Cc K offc
        then mergeVal acc rs cs Rc Cc K offc (offc r c k)
        else offc r c k := by
  have H := foldl_remapCell_spec acc offc rs cs Rc Cc K b hb hcells
    (cellList Rc Cc K offc) (cellList_nodup Rc Cc K offc)
    (fun w hw => (mem_cellList_iff Rc Cc K offc w).mp hw) offc
    (fun _ _ _ _ => rfl) (fun _ _ _ _ _ h => h) r c k
  unfold processCells
  by_cases hmem : offc r c k ∈ cellsOf Rc Cc K offc
  · rw [if_pos hmem]
    exact H.1 ((mem_cellList_iff Rc Cc K offc _).mpr hmem)
  · rw [if_neg hmem]
    exact H.2 fun h => hmem ((mem_cellList_iff Rc Cc K offc _).mp h)

/-- C2 — Stitcher overlap merge: inside `stitch_crops`, a crop is offset by
the accumulator maximum `imgMax R C K acc` and run through the cell loop
`processCells` with its destination window `[rs,re) × [cs,ce)`.  For every
non-zero label value of the offset crop, every pixel holding that value
ends up with `mergeVal`: the greatest non-zero accumulator value present at
that label's pixels within the destination window when there is one (the
deterministic greatest-ID tie-break), and the unchanged offset value when
the label overlaps no non-zero accumulator pixel. -/
theorem stitch_crops_overlap_merge (acc crop : Img) (R C K rs re cs ce r c k : ℕ)
    (hre : re ≤ R) (hce : ce ≤ C)
    (hmem : offsetCrop (imgMax R C K acc) crop r c k
      ∈ cellsOf (re - rs) (ce - cs) K (offsetCrop (imgMax R C K acc) crop)) :
    processCells acc rs cs (re - rs) (ce - cs) K
        (offsetCrop (imgMax R C K acc) crop) r c k
      = mergeVal acc rs cs (re - rs) (ce - cs) K
          (offsetCrop (imgMax R C K acc) crop)
          (offsetCrop (imgMax R C K acc) crop r c k) := by
  have hb : ∀ p ∈ cropDomain (re - rs) (ce - cs) K,
      acc (rs + p.1) (cs + p.2.1) p.2.2 ≤ imgMax R C K acc := by
    intro p hp
    have hdom : (rs + p.1, cs + p.2.1, p.2.2) ∈ cropDomain R C K := by
      simp only [cropDomain, Finset.mem_product, Finset.mem_range] at hp ⊢
      omega
    unfold imgMax
    exact Finset.le_sup (f := fun q : ℕ × ℕ × ℕ => acc q.1 q.2.1 q.2.2) hdom
  have hcells := fun v hv =>
    cellsOf_offsetCrop_gt (re - rs) (ce - cs) K (imgMax R C K acc) crop v hv
  rw [processCells_spec acc _ rs cs (re - rs) (ce - cs) K (imgMax R C K acc)
    hb hcells r c k, if_pos hmem]

/-- Witness for C2 at a concrete overlap: `exCrop`'s single cell (offset to
label 3) overlaps `exAcc`'s label 2 inside the window `[0,1) × [0,2)`, so
its pixel (0,0,0) is remapped. -/
theorem stitch_crops_overlap_merge_witness :
    processCells exAcc 0 0 (1 - 0) (2 - 0) 1
        (offsetCrop (imgMax 1 2 1 exAcc) exCrop) 0 0 0
      = mergeVal exAcc 0 0 (1 - 0) (2 - 0) 1
          (offsetCrop (imgMax 1 2 1 exAcc) exCrop)
          (offsetCrop (imgMax 1 2 1 exAcc) exCrop 0 0 0) :=
  stitch_crops_overlap_merge exAcc exCrop 1 2 1 0 1 0 2 0 0 0
    (by decide) (by decide) (by decide)

/-! ### Lemmas about the final sequential relabeling -/

lemma seqRank_pos (s : Finset ℕ) (v : ℕ) (hv : v ∈ s) : 1 ≤ seqRank s v := by
  unfold seqRank
  exact Finset.card_pos.mpr ⟨v, Finset.mem_filter.mpr ⟨hv, le_refl v⟩⟩

lemma seqRank_le_card (s : Finset ℕ) (v : ℕ) : seqRank s v ≤ s.card :=
  Finset.card_le_card (Finset.filter_subset _ _)

lemma seqRank_lt_of_lt (s : Finset ℕ) (u v : ℕ) (hv : v ∈ s) (huv : u < v) :
    seqRank s u < seqRank s v := by
  unfold seqRank
  apply Finset.card_lt_card
  rw [Finset.ssubset_def]
  constructor
  · intro x hx
    rcases Finset.mem_filter.mp hx with ⟨hxs, hxu⟩
    exact Finset.mem_filter.mpr ⟨hxs, le_trans hxu (le_of_lt huv)⟩
  · intro hsub
    have hvmem : v ∈ s.filter (· ≤ u) :=
      hsub (Finset.mem_filter.mpr ⟨hv, le_refl v⟩)
    have := (Finset.mem_filter.mp hvmem).2
    omega

lemma seqRank_image_eq (s : Finset ℕ) :
    s.image (seqRank s) = Finset.Icc 1 s.card := by
  have hsub : s.image (seqRank s) ⊆ Finset.Icc 1 s.card := by
    intro x hx
    rcases Finset.mem_image.mp hx with ⟨v, hv, hvx⟩
    rw [Finset.mem_Icc]
    exact hvx ▸ ⟨seqRank_pos s v hv, seqRank_le_card s v⟩
  have hinj : Set.InjOn (seqRank s) s := by
    intro u hu v hv h
    rw [Finset.mem_coe] at hu hv
    by_contra hne
    rcases lt_or_gt_of_ne hne with hlt | hlt
    · exact absurd h (ne_of_lt (seqRank_lt_of_lt s u v hv hlt))
    · exact absurd h.symm (ne_of_lt (seqRank_lt_of_lt s v u hu hlt))
  apply Finset.eq_of_subset_of_card_le hsub
  rw [Nat.card_Icc, Finset.card_image_of_injOn hinj]
  omega

lemma mem_planeVals_iff (R C : ℕ) (plane : ℕ → ℕ → ℕ) (v : ℕ) :
    v ∈ planeVals R C plane ↔ v ≠ 0 ∧ ∃ r < R, ∃ c < C, plane r c = v := by
  unfold planeVals
  simp only [Finset.mem_erase, Finset.mem_image, Finset.mem_product, Finset.mem_range,
    Prod.exists]
  constructor
  · rintro ⟨hne, r, c, ⟨hr, hc⟩, hval⟩
    exact ⟨hne, r, hr, c, hc, hval⟩
  · rintro ⟨hne, r, hr, c, hc, hval⟩
    exact ⟨hne, r, c, ⟨hr, hc⟩, hval⟩

lemma relabelSeq_zero_iff (R C : ℕ) (plane : ℕ → ℕ → ℕ) (r c : ℕ)
    (hr : r < R) (hc : c < C) :
    relabelSeq R C plane r c = 0 ↔ plane r c = 0 := by
  unfold relabelSeq
  by_cases h : plane r c = 0
  · simp [h]
  · rw [if_neg h]
    have hmem : plane r c ∈ planeVals R C plane :=
      (mem_planeVals_iff R C plane _).mpr ⟨h, r, hr, c, hc, rfl⟩
    have := seqRank_pos _ _ hmem
    constructor
    · intro h0
      omega
    · intro h0
      exact absurd h0 h

lemma planeVals_relabelSeq (R C : ℕ) (plane : ℕ → ℕ → ℕ) :
    planeVals R C (relabelSeq R C plane)
      = (planeVals R C plane).image (seqRank (planeVals R C plane)) := by
  ext a
  rw [mem_planeVals_iff]
  constructor
  · rintro ⟨ha, r, hr, c, hc, hval⟩
    unfold relabelSeq at hval
    by_cases h : plane r c = 0
    · rw [if_pos h] at hval
      exact absurd hval.symm ha
    · rw [if_neg h] at hval
      have hmem : plane r c ∈ planeVals R C plane :=
        (mem_planeVals_iff R C plane _).mpr ⟨h, r, hr, c, hc, rfl⟩
      exact Finset.mem_image.mpr ⟨plane r c, hmem, hval⟩
  · intro ha
    rcases Finset.mem_image.mp ha with ⟨v, hv, hva⟩
    rcases (mem_planeVals_iff R C plane v).mp hv with ⟨hvne, r, hr, c, hc, hval⟩
    have hpos := seqRank_pos _ _ hv
    refine ⟨by omega, r, hr, c, hc, ?_⟩
    unfold relabelSeq
    rw [hval, if_neg hvne]
    exact hva

/-- C3 (amended) — Sequential label invariant: after `stitch_crops`, the
non-zero labels of each image's label plane (channel `K-1`) form the dense
range `1 .. m` where `m` is the number of distinct non-zero labels of the
plane before the final relabeling (so `max(label) = m`, the count of unique
non-zero labels; `max(label) + 1` equals the count only when background 0
is included), and every pixel that is 0 before the final relabeling is
still 0 after it. -/
theorem stitch_crops_sequential_labels (R C K nR nC : ℕ) (rS rE cS cE : ℕ → ℕ)
    (stack : ℕ → ℕ → Img) (img r c : ℕ) (hr : r < R) (hc : c < C) :
    planeVals R C (fun a b => stitch_crops R C K nR nC rS rE cS cE stack img a b (K - 1))
      = Finset.Icc 1 (planeVals R C (fun a b =>
          placeAll R C K nR nC rS rE cS cE (stack img) a b (K - 1))).card
    ∧ (stitch_crops R C K nR nC rS rE cS cE stack img r c (K - 1) = 0
        ↔ placeAll R C K nR nC rS rE cS cE (stack img) r c (K - 1) = 0) := by
  have hout : (fun a b => stitch_crops R C K nR nC rS rE cS cE stack img a b (K - 1))
      = relabelSeq R C (fun a b =>
          placeAll R C K nR nC rS rE cS cE (stack img) a b (K - 1)) := by
    funext a b
    unfold stitch_crops
    simp
  constructor
  · rw [hout, planeVals_relabelSeq, seqRank_image_eq]
  · have h2 : stitch_crops R C K nR nC rS rE cS cE stack img r c (K - 1)
        = relabelSeq R C (fun a b =>
            placeAll R C K nR nC rS rE cS cE (stack img) a b (K - 1)) r c :=
      congrFun (congrFun hout r) c
    rw [h2]
    exact relabelSeq_zero_iff R C _ r c hr hc

/-- Witness for C3 (amended) at the concrete one-pixel stack `stackC`. -/
theorem stitch_crops_sequential_labels_witness :
    planeVals 1 1 (fun a b => stitch_crops 1 1 1 1 1 (fun _ => 0) (fun _ => 1)
        (fun _ => 0) (fun _ => 1) stackC 0 a b (1 - 1))
      = Finset.Icc 1 (planeVals 1 1 (fun a b =>
          placeAll 1 1 1 1 1 (fun _ => 0) (fun _ => 1) (fun _ => 0) (fun _ => 1)
            (stackC 0) a b (1 - 1))).card
    ∧ (stitch_crops 1 1 1 1 1 (fun _ => 0) (fun _ => 1) (fun _ => 0) (fun _ => 1)
          stackC 0 0 0 (1 - 1) = 0
        ↔ placeAll 1 1 1 1 1 (fun _ => 0) (fun _ => 1) (fun _ => 0) (fun _ => 1)
            (stackC 0) 0 0 (1 - 1) = 0) :=
  stitch_crops_sequential_labels 1 1 1 1 1 (fun _ => 0) (fun _ => 1) (fun _ => 0)
    (fun _ => 1) stackC 0 0 0 (by decide) (by decide)

/-- C3 counterexample — the claim's arithmetic gloss `max(label) + 1 ==
count(unique labels)` with 0 excluded from the count fails on the code:
stitching the one-object stack `stackC` yields a plane whose maximum label
is 1 and whose non-zero unique-label count is 1, and 1 + 1 ≠ 1. -/
theorem stitch_crops_maxplus1_count_ce :
    planeMax 1 1 (fun a b => stitch_crops 1 1 1 1 1 (fun _ => 0) (fun _ => 1)
        (fun _ => 0) (fun _ => 1) stackC 0 a b 0) + 1
      ≠ (planeVals 1 1 (fun a b => stitch_crops 1 1 1 1 1 (fun _ => 0) (fun _ => 1)
          (fun _ => 0) (fun _ => 1) stackC 0 a b 0)).card := by
  decide

/-- C4 — Stitcher combine priority: at every pixel of the destination
window, `placeCrop` keeps a non-zero accumulator value and takes the
(possibly remapped) crop value at every other pixel — so on overlaps the
crop placed first wins. -/
theorem stitch_crops_combine_priority (acc crop0 : Img) (R C K rs re cs ce r c k : ℕ)
    (hin : rs ≤ r ∧ r < re ∧ cs ≤ c ∧ c < ce ∧ k < K) :
    placeCrop R C K rs re cs ce acc crop0 r c k
      = if 0 < acc r c k then acc r c k
        else processCells acc rs cs (re - rs) (ce - cs) K
            (offsetCrop (imgMax R C K acc) crop0) (r - rs) (c - cs) k := by
  unfold placeCrop
  simp only [if_pos hin]

/-- Witness for C4 at the pixel (0,1,0) of the window `[0,1) × [0,2)` of
`exAcc`, where the accumulator is zero, and implicitly at (0,0,0) where it
is not. -/
theorem stitch_crops_combine_priority_witness :
    placeCrop 1 2 1 0 1 0 2 exAcc exCrop 0 1 0
      = if 0 < exAcc 0 1 0 then exAcc 0 1 0
        else processCells exAcc 0 0 (1 - 0) (2 - 0) 1
            (offsetCrop (imgMax 1 2 1 exAcc) exCrop) (0 - 0) (1 - 0) 0 :=
  stitch_crops_combine_priority exAcc exCrop 1 2 1 0 1 0 2 0 1 0 (by decide)

/-- C1 — the round-trip fails on the code at a concrete input: `tensorA`
is fully unlabeled (label channel 1 all zero) and holds raw values 5 and 7;
cropping it with the two-tile plan (`stackA`) and stitching yields 12, not
7, at pixel (0,2) of raw channel 0 — `stitch_crops` adds the running
accumulator maximum (here 5) to non-zero pixels of every channel, so even
unlabeled regions are not returned unchanged. -/
theorem crop_stitch_roundtrip_failure :
    stitch_crops 1 3 2 1 2 (fun _ => 0) (fun _ => 1) (fun i => i) (fun i => i + 2)
        stackA 0 0 2 0 = 12
    ∧ tensorA 0 2 0 = 7 ∧ tensorA 0 2 1 = 0 := by
  decide

/-- C5 — the stitcher mutates non-label channels: stitching `stackB`
(raw 3 in crop 0, raw 4 in crop 1, label channel all zero) puts 7 = 4 + 3
at pixel (0,2) of raw channel 0, not the source crop's value 4; channel 0
is not the label channel (K - 1 = 1). -/
theorem stitch_crops_mutates_raw_channel :
    stitch_crops 1 3 2 1 2 (fun _ => 0) (fun _ => 1) (fun i => i) (fun i => i + 2)
        stackB 0 0 2 0 = 7
    ∧ stackB 0 1 0 1 0 = 4 ∧ (0 : ℕ) ≠ 2 - 1 := by
  decide

/-- C6 — missing-tile behaviour of `load_crops` at a concrete directory:
tile (fov 0, row 0, col 0) is absent, tile (fov 0, row 0, col 1) present
with X values 9 and y values 8.  The loader does not fail (it is total),
the absent tile's region (crop index 0) stays all zero, and the present
tile is loaded into crop index 1 — but the function returns only the
stack; no list of missing identifiers is built. -/
theorem load_crops_missing_tile :
    load_crops 1 1 2 2 2 2 (fun _ _ col => col == 1) (fun _ _ _ _ _ _ => 9)
        (fun _ _ _ _ _ => 8) 0 0 0 0 0 = 0
    ∧ load_crops 1 1 2 2 2 2 (fun _ _ col => col == 1) (fun _ _ _ _ _ _ => 9)
        (fun _ _ _ _ _ => 8) 0 0 1 1 1 = 0
    ∧ load_crops 1 1 2 2 2 2 (fun _ _ col => col == 1) (fun _ _ _ _ _ _ => 9)
        (fun _ _ _ _ _ => 8) 0 0 0 1 0 = 0
    ∧ load_crops 1 1 2 2 2 2 (fun _ _ col => col == 1) (fun _ _ _ _ _ _ => 9)
        (fun _ _ _ _ _ => 8) 0 1 0 0 0 = 9
    ∧ load_crops 1 1 2 2 2 2 (fun _ _ col => col == 1) (fun _ _ _ _ _ _ => 9)
        (fun _ _ _ _ _ => 8) 0 1 0 0 1 = 8 := by
  decide

/-! ### Tiling-parameter validation, overlap-fraction range, crop-count
mode, and padding trim -/

lemma validate_ok_facts (cs cn : Option (ℤ × ℤ)) (f : ℚ) (u : Unit)
    (h : validate_crop_params cs cn f = .ok u) :
    ¬(cs = none ∧ cn = none) ∧ ¬(cs ≠ none ∧ cn ≠ none) ∧ 0 ≤ f ∧ f ≤ 1 := by
  unfold validate_crop_params at h
  split_ifs at h with h1 h2 h3 h4 h5
  · refine ⟨?_, ?_, ?_, ?_⟩
    · rintro ⟨hcs, hcn⟩
      exact h1 (by simp [hcs, hcn])
    · rintro ⟨hcs, hcn⟩
      apply h2
      simp only [Bool.and_eq_true]
      exact ⟨Option.ne_none_iff_isSome.mp hcs, Option.ne_none_iff_isSome.mp hcn⟩
    · by_contra hneg
      apply h5
      simp only [Bool.or_eq_true, decide_eq_true_eq]
      exact Or.inl (not_le.mp hneg)
    · by_contra hneg
      apply h5
      simp only [Bool.or_eq_true, decide_eq_true_eq]
      exact Or.inr (not_le.mp hneg)

lemma compute_size_nonpos_fails (L : ℕ) (S : ℤ) (f : ℚ) (hS : S ≤ 0) (hf1 : f ≤ 1) :
    compute_crop_indices_size L S f = .error .strideTooSmall := by
  unfold compute_crop_indices_size
  have h1 : (0 : ℚ) ≤ 1 - f := by linarith
  have h2 : (S : ℚ) ≤ 0 := by exact_mod_cast hS
  have h : (S : ℚ) * (1 - f) < 1 := by nlinarith
  rw [if_pos h]

lemma compute_num_nonpos_fails (L : ℕ) (N : ℤ) (f : ℚ) (hN : N ≤ 0) :
    ∃ e, compute_crop_indices_num L N f = .error e := by
  unfold compute_crop_indices_num
  by_cases h : (⌈(L : ℚ) / ((N : ℚ) - f * ((N : ℚ) - 1))⌉ : ℚ) * (1 - f) < 1
  · exact ⟨.strideTooSmall, by rw [if_pos h]⟩
  · exact ⟨.numNonPos, by rw [if_neg h, if_pos hN]⟩

/-- C7 — Tiling-parameter validation: `crop_multichannel_data` ends in a
`ConfigurationError`, before any cropping work and exposing no partial
state, whenever both or neither of `crop_size`/`crop_num` are supplied
and whenever a supplied pair has a non-positive entry.  The both/neither
cases and part of the non-positive cases are raised by the in-src
sanitising block; the non-positive entries that slip through its
precedence-broken positivity tests (`not crop_size[0] > 0 and
crop_size[1] > 0`, which only fires on a (≤ 0, > 0) pair) are rejected by
the `S ≤ 0` / `N ≤ 0` / stride guards of the spec-modelled Coordinate
Planner (spec §4.1), still before `crop_helper` runs. -/
theorem tiling_params_rejected (rowLen colLen : ℕ) (cs cn : Option (ℤ × ℤ))
    (f : ℚ)
    (hbad : (cs = none ∧ cn = none) ∨ (cs ≠ none ∧ cn ≠ none)
      ∨ (∃ s, cs = some s ∧ (s.1 ≤ 0 ∨ s.2 ≤ 0))
      ∨ (∃ n, cn = some n ∧ (n.1 ≤ 0 ∨ n.2 ≤ 0))) :
    ∃ e : CropErr,
      crop_multichannel_data rowLen colLen cs cn f = .error (.config e) := by
  rcases hval : validate_crop_params cs cn f with e | u
  · exact ⟨e, by unfold crop_multichannel_data; rw [hval]⟩
  · obtain ⟨hno, hnb, hf0, hf1⟩ := validate_ok_facts cs cn f u hval
    rcases hbad with ⟨hcs, hcn⟩ | hb | ⟨s, hcs, hsle⟩ | ⟨n, hcn, hnle⟩
    · exact absurd ⟨hcs, hcn⟩ hno
    · exact absurd hb hnb
    · subst hcs
      unfold crop_multichannel_data
      rw [hval]
      rcases hsle with hs1 | hs2
      · exact ⟨.strideTooSmall,
          by simp [compute_size_nonpos_fails rowLen s.1 f hs1 hf1, Except.bind]⟩
      · rcases hrow : compute_crop_indices_size rowLen s.1 f with e1 | x
        · exact ⟨e1, by simp [hrow, Except.bind]⟩
        · exact ⟨.strideTooSmall,
            by simp [hrow, compute_size_nonpos_fails colLen s.2 f hs2 hf1,
              Except.bind, Except.map]⟩
    · have hcsn : cs = none := by
        cases hcs0 : cs with
        | none => rfl
        | some s0 =>
          rw [hcs0] at hnb
          exact absurd ⟨by simp, by simp [hcn]⟩ hnb
      subst hcsn
      subst hcn
      unfold crop_multichannel_data
      rw [hval]
      rcases hnle with hn1 | hn2
      · rcases compute_num_nonpos_fails rowLen n.1 f hn1 with ⟨e1, he1⟩
        exact ⟨e1, by simp [he1, Except.bind]⟩
      · rcases hrow : compute_crop_indices_num rowLen n.1 f with e1 | x
        · exact ⟨e1, by simp [hrow, Except.bind]⟩
        · rcases compute_num_nonpos_fails colLen n.2 f hn2 with ⟨e2, he2⟩
          exact ⟨e2, by simp [hrow, he2, Except.bind, Except.map]⟩

/-- Witness for C7 at `crop_size = (5, -3)` (an input the sanitising
block's precedence-broken positivity test lets through). -/
theorem tiling_params_rejected_witness :
    ∃ e : CropErr,
      crop_multichannel_data 10 10 (some (5, -3)) none 0 = .error (.config e) :=
  tiling_params_rejected 10 10 (some (5, -3)) none 0
    (Or.inr (Or.inr (Or.inl ⟨(5, -3), rfl, Or.inr (by norm_num)⟩)))

lemma validate_overlap_out_fails (cs cn : Option (ℤ × ℤ)) (f : ℚ)
    (h1 : f < 0 ∨ 1 < f) : ∃ e, validate_crop_params cs cn f = .error e := by
  unfold validate_crop_params
  split_ifs with h a b c d
  · exact ⟨_, rfl⟩
  · exact ⟨_, rfl⟩
  · exact ⟨_, rfl⟩
  · exact ⟨_, rfl⟩
  · exact ⟨_, rfl⟩
  · exfalso
    apply d
    simp only [Bool.or_eq_true, decide_eq_true_eq]
    exact h1

lemma compute_size_overlap_one (L : ℕ) (S : ℤ) :
    compute_crop_indices_size L S 1 = .error .strideTooSmall := by
  unfold compute_crop_indices_size
  norm_num

lemma compute_num_overlap_one (L : ℕ) (N : ℤ) :
    compute_crop_indices_num L N 1 = .error .strideTooSmall := by
  unfold compute_crop_indices_num
  norm_num

/-- C8 — Overlap-fraction range: `crop_multichannel_data` fails with one of
the `ConfigurationError`s for every overlap fraction outside [0, 1).  For
`overlap_frac < 0` or `> 1` the sanitising range check itself fires
(possibly preceded by another sanitising error); for `overlap_frac = 1`,
which the in-src range check accepts, the stride guard of the
spec-modelled `compute_crop_indices` rejects the zero stride
`S * (1 - 1)`. -/
theorem overlap_frac_out_of_range_fails (rowLen colLen : ℕ)
    (cs cn : Option (ℤ × ℤ)) (f : ℚ) (hf : f < 0 ∨ 1 ≤ f) :
    ∃ e : CropErr,
      crop_multichannel_data rowLen colLen cs cn f = .error (.config e) := by
  by_cases h1 : f < 0 ∨ 1 < f
  · rcases validate_overlap_out_fails cs cn f h1 with ⟨e, he⟩
    refine ⟨e, ?_⟩
    unfold crop_multichannel_data
    rw [he]
  · have hf1 : f = 1 := by
      rcases hf with hf | hf
      · exact absurd (Or.inl hf) h1
      · exact le_antisymm (not_lt.mp fun hlt => h1 (Or.inr hlt)) hf
    subst hf1
    rcases hval : validate_crop_params cs cn 1 with e | u
    · exact ⟨e, by unfold crop_multichannel_data; rw [hval]⟩
    · unfold crop_multichannel_data
      rw [hval]
      cases cs with
      | some s =>
        exact ⟨.strideTooSmall, by simp [compute_size_overlap_one, Except.bind]⟩
      | none =>
        cases cn with
        | some n =>
          exact ⟨.strideTooSmall, by simp [compute_num_overlap_one, Except.bind]⟩
        | none => exact ⟨.bothNone, rfl⟩

/-- Witness for C8 at `overlap_frac = 1` exactly, the boundary the claim
singles out. -/
theorem overlap_frac_out_of_range_fails_witness :
    ∃ e : CropErr,
      crop_multichannel_data 8 8 (some (2, 2)) none 1 = .error (.config e) :=
  overlap_frac_out_of_range_fails 8 8 (some (2, 2)) none 1 (Or.inr le_rfl)

/-- C9 — crop-count mode never returns: whenever `crop_num` is supplied,
`crop_size` omitted, the sanitising block passes and both axis plans
succeed, `crop_multichannel_data` hits `log_data['row_crop_size'] =
crop_size[0]` with `crop_size = None` and raises `TypeError`. -/
theorem crop_num_mode_type_error (rowLen colLen : ℕ) (n : ℤ × ℤ) (f : ℚ)
    (x y : List ℤ × List ℤ × ℤ)
    (hval : validate_crop_params none (some n) f = .ok ())
    (hrow : compute_crop_indices_num rowLen n.1 f = .ok x)
    (hcol : compute_crop_indices_num colLen n.2 f = .ok y) :
    crop_multichannel_data rowLen colLen none (some n) f = .error .typeError := by
  obtain ⟨a1, a2, a3⟩ := x
  obtain ⟨b1, b2, b3⟩ := y
  unfold crop_multichannel_data
  rw [hval]
  simp [hrow, hcol, Except.bind, Except.map]

/-- Witness for C9: `crop_num = (1, 1)`, `overlap_frac = 0` on a 10×10
image passes validation, both plans succeed, and the call returns the
`TypeError`. -/
theorem crop_num_mode_type_error_witness :
    crop_multichannel_data 10 10 none (some (1, 1)) 0 = .error .typeError :=
  crop_num_mode_type_error 10 10 (1, 1) 0 ([0], [10], 0) ([0], [10], 0)
    (by decide)
    (by unfold compute_crop_indices_num
        norm_num [show List.range 1 = [0] from rfl, List.flatMap_cons,
          List.flatMap_nil, round_zero])
    (by unfold compute_crop_indices_num
        norm_num [show List.range 1 = [0] from rfl, List.flatMap_cons,
          List.flatMap_nil, round_zero])

/-- C10 — padding removal with zero padding empties the tensor: with
`row_padding = 0` and `col_padding = 0` the trim
`stitched_images[:, 0:(-row_padding), 0:(-col_padding), :]` produces a
0 × 0 spatial extent instead of the original `R × C`. -/
theorem trim_zero_padding_empties (R C rp cp : ℕ) (hrp : rp = 0) (hcp : cp = 0)
    (hR : 0 < R) (hC : 0 < C) :
    trim_dims R C rp cp = (0, 0)
    ∧ (trim_dims R C rp cp).1 ≠ R ∧ (trim_dims R C rp cp).2 ≠ C := by
  subst hrp hcp
  have h : trim_dims R C 0 0 = (0, 0) := by
    simp [trim_dims, pyStop]
  refine ⟨h, ?_, ?_⟩
  · rw [h]
    omega
  · rw [h]
    omega

/-- Witness for C10 on a 4×5 image with no padding. -/
theorem trim_zero_padding_empties_witness :
    trim_dims 4 5 0 0 = (0, 0)
    ∧ (trim_dims 4 5 0 0).1 ≠ 4 ∧ (trim_dims 4 5 0 0).2 ≠ 5 :=
  trim_zero_padding_empties 4 5 0 0 rfl rfl (by decide) (by decide)
